import Mathlib

/-!
# Verification of the DDPG agent (`src/agents/ddpg.py`)

A shallow embedding of the agent's learning algorithm: experience storage,
action selection with exploration, the actor-critic update rule, target
synchronization, and the per-episode interaction loop (`Agent.run`).

Scalars are modelled as rationals (`ℚ`); observation and action vectors as
`List ℚ`.  The four function approximators are abstract parameterized
functions (`params → input → output`): their internal MLP architecture is a
collaborator and is not needed by any claim.  Randomness (Gaussian noise,
sampling indices, the environment's action sampler) is supplied by oracle
functions that the theorems quantify over.  Gradient tracking is modelled by
tagging every tensor with the set of parameter groups its value was computed
from (`Tr.deps`); `detach` empties the set, mirroring autograd lineage.

`agents/common/{buffers,utils,networks}.py` are not part of the sources at
hand; the replay buffer and the target-update rules are modelled from the
spec (§4.1, §4.3), marked `Modelled from the spec:` below.
-/

/-- An observation or action vector (numpy array of rationals). -/
abbrev Vec := List ℚ

/-- `np.clip` on one scalar: values below `lo` become `lo`, above `hi` become `hi`. -/
def clip1 (lo hi x : ℚ) : ℚ := min hi (max lo x)

/-- Elementwise `np.clip` on a vector. -/
def npClip (v : Vec) (lo hi : ℚ) : Vec := v.map (clip1 lo hi)

/-- Mean of a list of rationals (`np.mean` / `torch.mean` on a nonempty list). -/
def listMean (l : List ℚ) : ℚ := l.sum / l.length

/-- `np.mean` as it behaves on a possibly-empty list: the mean of an empty
list is not a number, modelled as `none`. -/
def meanOpt (l : List ℚ) : Option ℚ :=
  if l.isEmpty then none else some (listMean l)

/-- Python `round(x, 5)`: rounding to five decimal places. -/
def round5 (x : ℚ) : ℚ := (round (x * 100000) : ℤ) / 100000

/-- The four independently-owned parameter groups of the agent
(policy, critic, policy target, critic target). -/
inductive ParamTag
  | policyP
  | qfP
  | policyTargP
  | qfTargP
deriving DecidableEq

/-- A batched tensor: a list of values plus the set of parameter groups the
value was computed from (autograd lineage).  `detach` empties the set. -/
structure Tr (α : Type) where
  vals : List α
  deps : Finset ParamTag
deriving DecidableEq

/-- `torch.Tensor.detach`: same values, removed from gradient tracking. -/
def Tr.detach (t : Tr ℚ) : Tr ℚ := ⟨t.vals, ∅⟩

/-- Apply a one-argument network (parameters tagged `tag`) to a batch. -/
def Tr.app1 {α β : Type} (tag : ParamTag) (f : α → β) (x : Tr α) : Tr β :=
  ⟨x.vals.map f, insert tag x.deps⟩

/-- Apply a two-argument network (parameters tagged `tag`) to two batches. -/
def Tr.app2 {α β γ : Type} (tag : ParamTag) (f : α → β → γ) (x : Tr α) (y : Tr β) : Tr γ :=
  ⟨List.zipWith f x.vals y.vals, insert tag (x.deps ∪ y.deps)⟩

/-- Elementwise sum of two batched tensors. -/
def Tr.add (a b : Tr ℚ) : Tr ℚ := ⟨List.zipWith (· + ·) a.vals b.vals, a.deps ∪ b.deps⟩

/-- Elementwise product of two batched tensors. -/
def Tr.mul (a b : Tr ℚ) : Tr ℚ := ⟨List.zipWith (· * ·) a.vals b.vals, a.deps ∪ b.deps⟩

/-- Multiply a batched tensor by a Python scalar. -/
def Tr.scale (c : ℚ) (t : Tr ℚ) : Tr ℚ := ⟨t.vals.map (c * ·), t.deps⟩

/-- `1 - t` elementwise (broadcast of the Python scalar `1`). -/
def Tr.oneSub (t : Tr ℚ) : Tr ℚ := ⟨t.vals.map (1 - ·), t.deps⟩

/-- `t.mean()`: a scalar (singleton) tensor with the same lineage. -/
def Tr.mean (t : Tr ℚ) : Tr ℚ := ⟨[listMean t.vals], t.deps⟩

/-- `-t` on a tensor. -/
def Tr.neg (t : Tr ℚ) : Tr ℚ := ⟨t.vals.map (fun x => -x), t.deps⟩

/-- `F.mse_loss` with the default mean reduction: the mean of the squared
differences, a scalar tensor whose lineage joins both arguments. -/
def mseLoss (a b : Tr ℚ) : Tr ℚ :=
  ⟨[listMean (List.zipWith (fun x y => (x - y) ^ 2) a.vals b.vals)], a.deps ∪ b.deps⟩

/-- One environment transition `(s, a, r, s', done)`, stored by value. -/
structure Transition where
  obs1 : Vec
  acts : Vec
  rews : ℚ
  obs2 : Vec
  done : Bool
deriving DecidableEq

/-- Modelled from the spec: §4.1 Experience Store (the class `ReplayBuffer`
of `agents/common/buffers.py`, which is not among the sources).  A
fixed-capacity ring of transition slots with a write cursor and a count of
valid entries. -/
structure ReplayBuffer where
  capacity : ℕ
  slots : List Transition
  ptr : ℕ
  size : ℕ
deriving DecidableEq

/-- Modelled from the spec: §4.1 `insert` — write into the cursor slot,
advance the cursor modulo capacity, increment the count up to capacity;
always succeeds (overwriting the oldest slot is intentional). -/
def ReplayBuffer.add (b : ReplayBuffer) (t : Transition) : ReplayBuffer :=
  { b with
    slots := if b.ptr < b.slots.length then b.slots.set b.ptr t else b.slots ++ [t]
    ptr := (b.ptr + 1) % b.capacity
    size := min (b.size + 1) b.capacity }

/-- The Experience Store's defined failure mode (spec §7). -/
inductive BufferError
  | insufficientData
deriving DecidableEq

/-- The batch a successful `sample` returns: `batchSize` transitions drawn
with replacement from the valid entries `[0, size)`; the random index draws
are supplied by the oracle `idxF`. -/
def sampledBatch (b : ReplayBuffer) (batchSize : ℕ) (idxF : ℕ → ℕ) : List Transition :=
  (List.range batchSize).map fun k => b.slots.getD (idxF k % b.size) ⟨[], [], 0, [], false⟩

/-- Modelled from the spec: §4.1 `sample` — fails with
`InsufficientDataError` if the count is zero; otherwise returns `batchSize`
transitions drawn with replacement. -/
def ReplayBuffer.sample (b : ReplayBuffer) (batchSize : ℕ) (idxF : ℕ → ℕ) :
    Except BufferError (List Transition) :=
  if b.size = 0 then .error .insufficientData
  else .ok (sampledBatch b batchSize idxF)

/-- The four approximators' parameter vectors (`Agent.policy`, `Agent.qf`,
`Agent.policy_target`, `Agent.qf_target` in `ddpg.py`). -/
structure Params where
  policyP : Vec
  qfP : Vec
  policyTargP : Vec
  qfTargP : Vec
deriving DecidableEq

/-- The agent's hyperparameters and network architectures (`Agent.__init__`).
`policyFwd`/`qfFwd` are the shared architectures of the main/target pairs:
each pair evaluates the same forward function on its own parameter vector. -/
structure AgentCfg where
  gamma : ℚ
  act_noise : ℚ
  act_limit : ℚ
  start_steps : ℕ
  batch_size : ℕ
  tau : ℚ
  policyFwd : Vec → Vec → Vec
  qfFwd : Vec → Vec → Vec → ℚ

/-- The end-of-episode key-value log written by `Agent.run` (lines 179-180).
A `none` value models a NaN float (the mean of an empty loss history). -/
structure Logger where
  lossPi : Option ℚ
  lossQ : Option ℚ
deriving DecidableEq

/-- The agent's mutable state during `run`: global step counter, mode flag,
the four parameter vectors, the experience store, the two append-only loss
histories and the logger. -/
structure AgentState where
  steps : ℕ
  eval_mode : Bool
  params : Params
  buffer : ReplayBuffer
  policy_losses : List ℚ
  qf_losses : List ℚ
  logger : Logger
deriving DecidableEq

/-- `Agent.select_action` (lines 81-84): evaluate the policy on the
observation, add `act_noise`-scaled noise in each dimension, and clip
elementwise to `[-act_limit, act_limit]`.  The standard-normal draw
`np.random.randn(act_dim)` is the oracle vector `noise`. -/
def select_action (cfg : AgentCfg) (p : Params) (obs : Vec) (noise : Vec) : Vec :=
  npClip (List.zipWith (fun a n => a + cfg.act_noise * n) (cfg.policyFwd p.policyP obs) noise)
    (-cfg.act_limit) cfg.act_limit

/-- The action computed in the evaluation branch of `Agent.run`
(lines 150-151): the raw policy output, detached — no noise, no clipping. -/
def evalAction (cfg : AgentCfg) (p : Params) (obs : Vec) : Vec :=
  cfg.policyFwd p.policyP obs

/-- The loss computation of `Agent.train_model` (lines 88-118), transcribed
node by node on `Tr` tensors.  `obs1/obs2/acts/rews/done` are the sampled
batch (leaves, no lineage); `done` is cast `Bool → ℚ` as in the stored
float flags.  `.squeeze(1)` is shape bookkeeping with no counterpart here,
and line 110's `q_backup.to(self.device)` discards its result.  Returns
`(policy_loss, qf_loss)`. -/
def trainCompute (cfg : AgentCfg) (p : Params) (batch : List Transition) : Tr ℚ × Tr ℚ :=
  let obs1 : Tr Vec := ⟨batch.map (·.obs1), ∅⟩
  let obs2 : Tr Vec := ⟨batch.map (·.obs2), ∅⟩
  let acts : Tr Vec := ⟨batch.map (·.acts), ∅⟩
  let rews : Tr ℚ := ⟨batch.map (·.rews), ∅⟩
  let done : Tr ℚ := ⟨batch.map (fun t => if t.done then (1 : ℚ) else 0), ∅⟩
  let pi := Tr.app1 .policyP (cfg.policyFwd p.policyP) obs1
  let q_pi := Tr.app2 .qfP (cfg.qfFwd p.qfP) obs1 pi
  let q := Tr.app2 .qfP (cfg.qfFwd p.qfP) obs1 acts
  let pi_target := Tr.app1 .policyTargP (cfg.policyFwd p.policyTargP) obs2
  let q_pi_target := Tr.app2 .qfTargP (cfg.qfFwd p.qfTargP) obs2 pi_target
  let q_backup := Tr.add rews (Tr.mul (Tr.scale cfg.gamma (Tr.oneSub done)) q_pi_target)
  let policy_loss := Tr.neg (Tr.mean q_pi)
  let qf_loss := mseLoss q (Tr.detach q_backup)
  (policy_loss, qf_loss)

/-- The scalar `policy_loss.item()` appended at line 137. -/
def policyLossVal (cfg : AgentCfg) (p : Params) (batch : List Transition) : ℚ :=
  (trainCompute cfg p batch).1.vals.headD 0

/-- The scalar `qf_loss.item()` appended at line 138. -/
def qfLossVal (cfg : AgentCfg) (p : Params) (batch : List Transition) : ℚ :=
  (trainCompute cfg p batch).2.vals.headD 0

/-- Per-invocation oracle data for one Learning Step: the buffer's random
index draws, and the optimizer steps.  `qfStep`/`policyStep` abstract the
Adam updates of lines 121-124 and 127-130: each optimizer was constructed
over exactly one network's parameters (lines 75-76), so each step rewrites
exactly that parameter vector. -/
structure TrainOracle where
  idxF : ℕ → ℕ
  qfStep : Vec → Vec
  policyStep : Vec → Vec

/-- The critic gradient step (lines 121-124): only `qf`'s parameters are in
`qf_optimizer`'s scope, so only `qfP` changes. -/
def criticUpdate (o : TrainOracle) (p : Params) : Params :=
  { p with qfP := o.qfStep p.qfP }

/-- The policy gradient step (lines 127-130): only `policy`'s parameters are
in `policy_optimizer`'s scope, so only `policyP` changes. -/
def policyUpdate (o : TrainOracle) (p : Params) : Params :=
  { p with policyP := o.policyStep p.policyP }

/-- Modelled from the spec: §4.3 `soft_update` (the function
`soft_target_update` of `agents/common/utils.py`, not among the sources) —
elementwise `target ← tau·main + (1-tau)·target`. -/
def softUpd (tau : ℚ) (main target : Vec) : Vec :=
  List.zipWith (fun m t => tau * m + (1 - tau) * t) main target

/-- The two `soft_target_update` calls of lines 133-134, one per
main/target pair. -/
def targetSync (tau : ℚ) (p : Params) : Params :=
  let p1 := { p with policyTargP := softUpd tau p.policyP p.policyTargP }
  { p1 with qfTargP := softUpd tau p1.qfP p1.qfTargP }

/-- `Agent.train_model` (lines 86-138) as a state transformer: sample a
batch (propagating `InsufficientDataError`), compute both losses, apply the
critic then the policy gradient step, soft-sync both target pairs, and
append both scalar losses to their histories. -/
def train_model (cfg : AgentCfg) (o : TrainOracle) (s : AgentState) :
    Except BufferError AgentState :=
  match s.buffer.sample cfg.batch_size o.idxF with
  | .error e => .error e
  | .ok batch =>
      .ok { s with
            params := targetSync cfg.tau (policyUpdate o (criticUpdate o s.params))
            policy_losses := s.policy_losses ++ [policyLossVal cfg s.params batch]
            qf_losses := s.qf_losses ++ [qfLossVal cfg s.params batch] }

/-- The environment collaborator (spec §6): reset, step, and the action
space's `sample()`, with all hidden state and randomness folded into `σ`. -/
structure Env (σ : Type) where
  resetF : σ → Vec × σ
  stepF : σ → Vec → Vec × ℚ × Bool × σ
  sampleF : σ → Vec

/-- Per-episode oracle data: the Gaussian draw for each training step and
the Learning-Step oracle for each invocation, both indexed by the value of
the global step counter at that step. -/
structure RunOracle where
  noise : ℕ → Vec
  tr : ℕ → TrainOracle

/-- The action selection of the training branch (lines 159-162): the noisy
policy after warm-up (`steps > start_steps`), the environment's native
sampler during warm-up.  `steps` is the already-incremented counter. -/
def chosenAction {σ : Type} (cfg : AgentCfg) (env : Env σ) (o : RunOracle)
    (steps : ℕ) (p : Params) (obs : Vec) (es : σ) : Vec :=
  if steps > cfg.start_steps then select_action cfg p obs (o.noise steps)
  else env.sampleF es

/-- One iteration of the `Agent.run` loop in training mode (lines 153-172):
increment the step counter, choose the action, step the environment, insert
the transition, and invoke one Learning Step iff the incremented counter
exceeds `batch_size`.  Returns the new agent state and the step's
`(next_obs, reward, done)` with the new environment state. -/
def trainModeStep {σ : Type} (cfg : AgentCfg) (env : Env σ) (o : RunOracle)
    (s : AgentState) (obs : Vec) (es : σ) :
    Except BufferError (AgentState × Vec × ℚ × Bool × σ) :=
  let s1 := { s with steps := s.steps + 1 }
  let action := chosenAction cfg env o s1.steps s1.params obs es
  match env.stepF es action with
  | (nextObs, reward, dn, es') =>
    let s2 := { s1 with buffer := s1.buffer.add ⟨obs, action, reward, nextObs, dn⟩ }
    if s2.steps > cfg.batch_size then
      match train_model cfg (o.tr s2.steps) s2 with
      | .error e => .error e
      | .ok s3 => .ok (s3, nextObs, reward, dn, es')
    else .ok (s2, nextObs, reward, dn, es')

/-- One iteration of the `Agent.run` loop in evaluation mode (lines
149-152): deterministic policy action, environment step, no storage, no
learning, no counter increment. -/
def evalModeStep {σ : Type} (cfg : AgentCfg) (env : Env σ)
    (s : AgentState) (obs : Vec) (es : σ) : AgentState × Vec × ℚ × Bool × σ :=
  match env.stepF es (evalAction cfg s.params obs) with
  | (nextObs, reward, dn, es') => (s, nextObs, reward, dn, es')

/-- One iteration of the `while` loop of `Agent.run` (lines 148-176),
branching on the mode flag. -/
def loopStep {σ : Type} (cfg : AgentCfg) (env : Env σ) (o : RunOracle)
    (s : AgentState) (obs : Vec) (es : σ) :
    Except BufferError (AgentState × Vec × ℚ × Bool × σ) :=
  if s.eval_mode then .ok (evalModeStep cfg env s obs es)
  else trainModeStep cfg env o s obs es

/-- The log write at the end of `Agent.run` (lines 179-180): the rounded
mean of each full accumulated loss history. -/
def finishLog (s : AgentState) : AgentState :=
  { s with logger := { lossPi := (meanOpt s.policy_losses).map round5
                       lossQ := (meanOpt s.qf_losses).map round5 } }

/-- The `while not (done or step_number == max_step)` loop of `Agent.run`,
by recursion on the remaining budget `fuel = max_step - step_number`:
`fuel = 0` exactly when `step_number == max_step`.  Returns
`(step_number, total_reward, final agent state, final env state)`. -/
def runAux {σ : Type} (cfg : AgentCfg) (env : Env σ) (o : RunOracle) :
    ℕ → AgentState → Vec → σ → Bool → ℕ → ℚ →
    Except BufferError (ℕ × ℚ × AgentState × σ)
  | 0, s, _, es, _, stepNumber, totalReward =>
      .ok (stepNumber, totalReward, finishLog s, es)
  | _ + 1, s, _, es, true, stepNumber, totalReward =>
      .ok (stepNumber, totalReward, finishLog s, es)
  | fuel + 1, s, obs, es, false, stepNumber, totalReward =>
      match loopStep cfg env o s obs es with
      | .error e => .error e
      | .ok (s', nextObs, reward, dn, es') =>
          runAux cfg env o fuel s' nextObs es' dn (stepNumber + 1) (totalReward + reward)

/-- `Agent.run(max_step)` (lines 140-181): reset the environment, iterate
the loop, write the log, return the step count and accumulated reward
(along with the final agent and environment states, which Python mutates in
place). -/
def run {σ : Type} (cfg : AgentCfg) (env : Env σ) (o : RunOracle)
    (maxStep : ℕ) (s : AgentState) (es0 : σ) :
    Except BufferError (ℕ × ℚ × AgentState × σ) :=
  match env.resetF es0 with
  | (obs0, es1) => runAux cfg env o maxStep s obs0 es1 false 0 0

/-- Spec §4.4 step 2 stated on one stored transition: the critic's value for
the (observation, stored action) pair. -/
def spec_q (cfg : AgentCfg) (p : Params) (t : Transition) : ℚ :=
  cfg.qfFwd p.qfP t.obs1 t.acts

/-- Spec §4.4 step 3 stated on one stored transition: the critic's value at
the policy's action for the observation. -/
def spec_q_pi (cfg : AgentCfg) (p : Params) (t : Transition) : ℚ :=
  cfg.qfFwd p.qfP t.obs1 (cfg.policyFwd p.policyP t.obs1)

/-- Spec §4.4 step 4 stated on one stored transition: the target critic's
value at the target policy's action for the next observation. -/
def spec_q_pi_target (cfg : AgentCfg) (p : Params) (t : Transition) : ℚ :=
  cfg.qfFwd p.qfTargP t.obs2 (cfg.policyFwd p.policyTargP t.obs2)

/-- Spec §4.4 step 5 stated on one stored transition:
`backup = reward + gamma · (1 - done) · q_pi_target`. -/
def spec_backup (cfg : AgentCfg) (p : Params) (t : Transition) : ℚ :=
  t.rews + cfg.gamma * (1 - (if t.done then (1 : ℚ) else 0)) * spec_q_pi_target cfg p t

/-- Concrete parameter vectors for witness evaluations. -/
def p0 : Params := ⟨[1], [1], [1], [1]⟩

/-- A concrete experience store holding one transition (capacity 4). -/
def buf0 : ReplayBuffer := ⟨4, [⟨[1], [0], 1, [2], false⟩], 1, 1⟩

/-- A concrete training-mode agent state past the learning gate. -/
def sTr : AgentState := ⟨3, false, p0, buf0, [], [], ⟨none, none⟩⟩

/-- A concrete evaluation-mode agent state with empty loss histories. -/
def sEv : AgentState := ⟨0, true, p0, buf0, [], [], ⟨none, none⟩⟩

/-- A concrete agent configuration for witness evaluations. -/
def cfg0 : AgentCfg :=
  { gamma := 1/2, act_noise := 1, act_limit := 1, start_steps := 1, batch_size := 2,
    tau := 1/2,
    policyFwd := fun _ o => o.map (fun x => x / 2),
    qfFwd := fun _ o a => o.sum + a.sum }

/-- A concrete deterministic environment (state = a step counter). -/
def env0 : Env ℕ :=
  { resetF := fun es => ([1], es)
    stepF := fun es a => ([a.sum], a.sum, false, es + 1)
    sampleF := fun _ => [1/4] }

/-- A concrete Learning-Step oracle. -/
def o0 : TrainOracle :=
  { idxF := fun k => k, qfStep := fun v => v.map (· + 1), policyStep := fun v => v.map (· + 1) }

/-- A concrete episode oracle. -/
def or0 : RunOracle := { noise := fun _ => [1], tr := fun _ => o0 }

/-- A configuration whose policy emits the out-of-range value `2` while
`act_limit = 1`: the raw output a clipping step would have to cut down. -/
def cfgC2 : AgentCfg := { cfg0 with policyFwd := fun _ _ => [2] }

/-- An environment that records every action it receives in its state. -/
def envRec : Env (List Vec) :=
  { resetF := fun es => ([], es)
    stepF := fun es a => ([], 0, true, a :: es)
    sampleF := fun _ => [] }

lemma zipWith_map_same {α β γ δ : Type} (f : β → γ → δ) (g : α → β) (h : α → γ) :
    ∀ l : List α, List.zipWith f (l.map g) (l.map h) = l.map fun x => f (g x) (h x)
  | [] => rfl
  | a :: l => by simp [zipWith_map_same f g h l]

/-- C7.  `select_action` returns a vector lying elementwise within
`[-act_limit, act_limit]`, for any noise draw and any raw policy output. -/
theorem select_action_within_limits (cfg : AgentCfg) (p : Params) (obs noise : Vec)
    (h : 0 ≤ cfg.act_limit) :
    ∀ x ∈ select_action cfg p obs noise, -cfg.act_limit ≤ x ∧ x ≤ cfg.act_limit := by
  intro x hx
  rw [select_action, npClip] at hx
  rcases List.mem_map.mp hx with ⟨y, -, rfl⟩
  unfold clip1
  constructor
  · exact le_min (by linarith) (le_max_left _ _)
  · exact min_le_left _ _

theorem select_action_within_limits_witness :
    0 ≤ cfg0.act_limit ∧
      ∀ x ∈ select_action cfg0 p0 [1, 1] [5, -5], -cfg0.act_limit ≤ x ∧ x ≤ cfg0.act_limit :=
  ⟨by decide, select_action_within_limits cfg0 p0 [1, 1] [5, -5] (by decide)⟩

/-- C2, counterexample.  With `act_limit = 1` and a raw policy output of
`[2]`, the evaluation branch of `Agent.run` (lines 150-151) hands the
environment the raw output `[2]`: it is not the clamped output `[1]`, so the
core does not clip in evaluation mode. -/
theorem evalAction_unclipped_cex :
    evalAction cfgC2 p0 [] = [2] ∧
    npClip (cfgC2.policyFwd p0.policyP []) (-cfgC2.act_limit) cfgC2.act_limit = [1] ∧
    evalAction cfgC2 p0 []
      ≠ npClip (cfgC2.policyFwd p0.policyP []) (-cfgC2.act_limit) cfgC2.act_limit ∧
    (evalModeStep cfgC2 envRec { sEv with params := p0 } [] []).2.2.2.2 = [[2]] := by
  refine ⟨by decide, by decide, by decide, ?_⟩
  decide

/-- C2, amended.  In evaluation mode the action passed to the environment is
the policy's raw output: no noise is added and no clipping is applied; the
action lies within `[-act_limit, act_limit]` exactly when the policy's own
(saturating) output does. -/
theorem evalAction_is_raw_policy_output {σ : Type} (cfg : AgentCfg) (env : Env σ)
    (s : AgentState) (obs : Vec) (es : σ) :
    evalAction cfg s.params obs = cfg.policyFwd s.params.policyP obs ∧
    evalModeStep cfg env s obs es = (s, env.stepF es (evalAction cfg s.params obs)) ∧
    ((∀ x ∈ cfg.policyFwd s.params.policyP obs, -cfg.act_limit ≤ x ∧ x ≤ cfg.act_limit) →
      ∀ x ∈ evalAction cfg s.params obs, -cfg.act_limit ≤ x ∧ x ≤ cfg.act_limit) := by
  refine ⟨rfl, rfl, fun hb => ?_⟩
  exact hb

theorem evalAction_is_raw_policy_output_witness :
    (∀ x ∈ cfg0.policyFwd sEv.params.policyP [1], -cfg0.act_limit ≤ x ∧ x ≤ cfg0.act_limit) ∧
    (∀ x ∈ evalAction cfg0 sEv.params [1], -cfg0.act_limit ≤ x ∧ x ≤ cfg0.act_limit) :=
  ⟨by norm_num [cfg0, sEv, p0],
   (evalAction_is_raw_policy_output cfg0 env0 sEv [1] 0).2.2 (by norm_num [cfg0, sEv, p0])⟩

/-- C1.  For every batch, `train_model`'s critic target is
`backup = reward + gamma·(1-done)·q_pi_target` computed from the target
networks on the next observations; the critic loss is the mean squared
error between `q` and that backup; the backup is excluded from gradient
tracking, so the critic loss's lineage is exactly the critic's parameters;
and the policy loss is the negative mean of `q_pi`. -/
theorem train_model_losses (cfg : AgentCfg) (p : Params) (batch : List Transition) :
    (trainCompute cfg p batch).2.vals
        = [listMean (batch.map fun t => (spec_q cfg p t - spec_backup cfg p t) ^ 2)] ∧
    (trainCompute cfg p batch).2.deps = {ParamTag.qfP} ∧
    (trainCompute cfg p batch).1.vals
        = [-listMean (batch.map fun t => spec_q_pi cfg p t)] ∧
    (trainCompute cfg p batch).1.deps = {ParamTag.qfP, ParamTag.policyP} := by
  refine ⟨?_, ?_, ?_, ?_⟩
  · simp only [trainCompute, Tr.app1, Tr.app2, Tr.add, Tr.mul, Tr.scale, Tr.oneSub,
      Tr.detach, mseLoss]
    congr 1
    congr 1
    simp only [List.map_map, zipWith_map_same]
    exact List.map_congr_left fun t _ => by
      simp [Function.comp, spec_q, spec_backup, spec_q_pi_target]
  · simp [trainCompute, Tr.app1, Tr.app2, Tr.detach, mseLoss]
  · simp only [trainCompute, Tr.app1, Tr.app2, Tr.neg, Tr.mean]
    simp only [List.map_map, zipWith_map_same]
    congr 1
  · simp [trainCompute, Tr.app1, Tr.app2, Tr.neg, Tr.mean]

lemma train_model_ok (cfg : AgentCfg) (o : TrainOracle) (s : AgentState)
    (h : 1 ≤ s.buffer.size) :
    train_model cfg o s = .ok { s with
      params := targetSync cfg.tau (policyUpdate o (criticUpdate o s.params))
      policy_losses := s.policy_losses
        ++ [policyLossVal cfg s.params (sampledBatch s.buffer cfg.batch_size o.idxF)]
      qf_losses := s.qf_losses
        ++ [qfLossVal cfg s.params (sampledBatch s.buffer cfg.batch_size o.idxF)] } := by
  have hs : ¬ s.buffer.size = 0 := by omega
  simp [train_model, ReplayBuffer.sample, hs]

/-- C5.  In every Learning Step the critic gradient step rewrites only the
critic's parameters, the policy gradient step rewrites only the policy's
parameters (the critic's are unchanged by it), and after both steps the
soft target synchronization is applied to both main/target pairs. -/
theorem gradient_step_scopes (cfg : AgentCfg) (o : TrainOracle) (tau : ℚ) (p : Params)
    (s : AgentState) (h : 1 ≤ s.buffer.size) :
    (∃ s', train_model cfg o s = .ok s' ∧
      s'.params = targetSync cfg.tau (policyUpdate o (criticUpdate o s.params))) ∧
    (criticUpdate o p).qfP = o.qfStep p.qfP ∧
    (criticUpdate o p).policyP = p.policyP ∧
    (criticUpdate o p).policyTargP = p.policyTargP ∧
    (criticUpdate o p).qfTargP = p.qfTargP ∧
    (policyUpdate o p).policyP = o.policyStep p.policyP ∧
    (policyUpdate o p).qfP = p.qfP ∧
    (policyUpdate o p).policyTargP = p.policyTargP ∧
    (policyUpdate o p).qfTargP = p.qfTargP ∧
    (targetSync tau p).policyTargP = softUpd tau p.policyP p.policyTargP ∧
    (targetSync tau p).qfTargP = softUpd tau p.qfP p.qfTargP ∧
    (targetSync tau p).policyP = p.policyP ∧
    (targetSync tau p).qfP = p.qfP :=
  ⟨⟨_, train_model_ok cfg o s h, rfl⟩,
   rfl, rfl, rfl, rfl, rfl, rfl, rfl, rfl, rfl, rfl, rfl, rfl⟩

theorem gradient_step_scopes_witness :
    1 ≤ sTr.buffer.size ∧
    ∃ s', train_model cfg0 o0 sTr = .ok s' ∧
      s'.params = targetSync cfg0.tau (policyUpdate o0 (criticUpdate o0 sTr.params)) :=
  ⟨by decide, (gradient_step_scopes cfg0 o0 (1/2) p0 sTr (by decide)).1⟩

/-- C6.  A Learning Step leaves the Experience Store (contents, cursor and
count), the step counter, the mode flag and the logger unchanged, and
appends exactly one scalar to each of the two loss histories. -/
theorem learning_step_frame (cfg : AgentCfg) (o : TrainOracle) (s : AgentState)
    (h : 1 ≤ s.buffer.size) :
    ∃ s', train_model cfg o s = .ok s' ∧
      s'.buffer = s.buffer ∧
      s'.steps = s.steps ∧
      s'.eval_mode = s.eval_mode ∧
      s'.logger = s.logger ∧
      s'.policy_losses = s.policy_losses
        ++ [policyLossVal cfg s.params (sampledBatch s.buffer cfg.batch_size o.idxF)] ∧
      s'.qf_losses = s.qf_losses
        ++ [qfLossVal cfg s.params (sampledBatch s.buffer cfg.batch_size o.idxF)] :=
  ⟨_, train_model_ok cfg o s h, rfl, rfl, rfl, rfl, rfl, rfl⟩

theorem learning_step_frame_witness :
    1 ≤ sTr.buffer.size ∧
    ∃ s', train_model cfg0 o0 sTr = .ok s' ∧
      s'.buffer = sTr.buffer ∧
      s'.steps = sTr.steps ∧
      s'.eval_mode = sTr.eval_mode ∧
      s'.logger = sTr.logger ∧
      s'.policy_losses = sTr.policy_losses
        ++ [policyLossVal cfg0 sTr.params (sampledBatch sTr.buffer cfg0.batch_size o0.idxF)] ∧
      s'.qf_losses = sTr.qf_losses
        ++ [qfLossVal cfg0 sTr.params (sampledBatch sTr.buffer cfg0.batch_size o0.idxF)] :=
  ⟨by decide, learning_step_frame cfg0 o0 sTr (by decide)⟩

lemma trainModeStep_ok {σ : Type} (cfg : AgentCfg) (env : Env σ) (o : RunOracle)
    (s : AgentState) (obs : Vec) (es : σ) (h : 1 ≤ s.buffer.capacity) :
    ∃ s', trainModeStep cfg env o s obs es
        = .ok (s', env.stepF es (chosenAction cfg env o (s.steps + 1) s.params obs es)) ∧
      s'.eval_mode = s.eval_mode ∧
      s'.buffer.capacity = s.buffer.capacity ∧
      s'.steps = s.steps + 1 ∧
      s'.qf_losses.length
        = s.qf_losses.length + (if s.steps + 1 > cfg.batch_size then 1 else 0) ∧
      (∃ u, s'.policy_losses = s.policy_losses ++ u) ∧
      (∃ v, s'.qf_losses = s.qf_losses ++ v) := by
  rcases hx : env.stepF es (chosenAction cfg env o (s.steps + 1) s.params obs es) with
    ⟨nextObs, reward, dn, es'⟩
  by_cases hc : s.steps + 1 > cfg.batch_size
  · have hsize : 1 ≤ (s.buffer.add
        ⟨obs, chosenAction cfg env o (s.steps + 1) s.params obs es, reward, nextObs, dn⟩).size := by
      simp only [ReplayBuffer.add]
      omega
    refine ⟨{ s with
        steps := s.steps + 1
        buffer := s.buffer.add
          ⟨obs, chosenAction cfg env o (s.steps + 1) s.params obs es, reward, nextObs, dn⟩
        params := targetSync cfg.tau (policyUpdate (o.tr (s.steps + 1))
          (criticUpdate (o.tr (s.steps + 1)) s.params))
        policy_losses := s.policy_losses ++ [policyLossVal cfg s.params
          (sampledBatch (s.buffer.add
            ⟨obs, chosenAction cfg env o (s.steps + 1) s.params obs es, reward, nextObs, dn⟩)
            cfg.batch_size (o.tr (s.steps + 1)).idxF)]
        qf_losses := s.qf_losses ++ [qfLossVal cfg s.params
          (sampledBatch (s.buffer.add
            ⟨obs, chosenAction cfg env o (s.steps + 1) s.params obs es, reward, nextObs, dn⟩)
            cfg.batch_size (o.tr (s.steps + 1)).idxF)] },
      ?_, rfl, rfl, rfl, by simp [hc], ⟨_, rfl⟩, ⟨_, rfl⟩⟩
    simp only [trainModeStep, hx]
    rw [if_pos hc, train_model_ok _ _ _ hsize]
  · refine ⟨{ s with
        steps := s.steps + 1
        buffer := s.buffer.add
          ⟨obs, chosenAction cfg env o (s.steps + 1) s.params obs es, reward, nextObs, dn⟩ },
      ?_, rfl, rfl, rfl, by simp [hc], ⟨[], by simp⟩, ⟨[], by simp⟩⟩
    simp only [trainModeStep, hx]
    rw [if_neg hc]

lemma runAux_ok {σ : Type} (cfg : AgentCfg) (env : Env σ) (o : RunOracle) :
    ∀ (fuel : ℕ) (s : AgentState) (obs : Vec) (es : σ) (dn : Bool) (sn : ℕ) (tw : ℚ),
      1 ≤ s.buffer.capacity →
      ∃ r, runAux cfg env o fuel s obs es dn sn tw = .ok r := by
  intro fuel
  induction fuel with
  | zero => exact fun s obs es dn sn tw _ => ⟨_, rfl⟩
  | succ n ih =>
    intro s obs es dn sn tw h
    cases dn with
    | true => exact ⟨_, rfl⟩
    | false =>
      by_cases he : s.eval_mode
      · rcases hx : env.stepF es (evalAction cfg s.params obs) with ⟨nextObs, reward, dn', es'⟩
        simp only [runAux, loopStep, he, if_true, evalModeStep, hx]
        exact ih s _ _ _ _ _ h
      · obtain ⟨s', hstep, _, hcap, -, -, -, -⟩ := trainModeStep_ok cfg env o s obs es h
        rcases hx : env.stepF es (chosenAction cfg env o (s.steps + 1) s.params obs es) with
          ⟨nextObs, reward, dn', es'⟩
        rw [hx] at hstep
        simp only [runAux, loopStep, he, if_false, hstep]
        exact ih s' _ _ _ _ _ (by omega)

/-- C3.  In a training-mode episode the Learning Step runs in an iteration
iff the incremented global step counter exceeds `batch_size` (observed here
through the loss history growing by exactly one entry); every insertion
leaves the store non-empty, and since the training branch inserts before it
gates the Learning Step, sampling never fails: the whole training-mode loop
returns without `InsufficientDataError`. -/
theorem training_gate_no_insufficient_data {σ : Type} (cfg : AgentCfg) (env : Env σ)
    (o : RunOracle) :
    (∀ (b : ReplayBuffer) (t : Transition), 1 ≤ b.capacity → 1 ≤ (b.add t).size) ∧
    (∀ (s : AgentState) (obs : Vec) (es : σ), 1 ≤ s.buffer.capacity →
      ∃ s' out, trainModeStep cfg env o s obs es = .ok (s', out) ∧
        s'.qf_losses.length
          = s.qf_losses.length + (if s.steps + 1 > cfg.batch_size then 1 else 0)) ∧
    (∀ (fuel : ℕ) (s : AgentState) (obs : Vec) (es : σ) (dn : Bool) (sn : ℕ) (tw : ℚ),
      s.eval_mode = false → 1 ≤ s.buffer.capacity →
      ∃ r, runAux cfg env o fuel s obs es dn sn tw = .ok r) := by
  refine ⟨?_, ?_, ?_⟩
  · intro b t hb
    simp only [ReplayBuffer.add]
    omega
  · intro s obs es h
    obtain ⟨s', hstep, -, -, -, hlen, -, -⟩ := trainModeStep_ok cfg env o s obs es h
    exact ⟨s', _, hstep, hlen⟩
  · intro fuel s obs es dn sn tw _ h
    exact runAux_ok cfg env o fuel s obs es dn sn tw h

theorem training_gate_no_insufficient_data_witness :
    (1 ≤ buf0.capacity ∧ 1 ≤ (buf0.add ⟨[0], [0], 0, [0], false⟩).size) ∧
    (∃ s' out, trainModeStep cfg0 env0 or0 sTr [1] 0 = .ok (s', out) ∧
      s'.qf_losses.length
        = sTr.qf_losses.length + (if sTr.steps + 1 > cfg0.batch_size then 1 else 0)) ∧
    (∃ r, runAux cfg0 env0 or0 2 sTr [1] 0 false 0 0 = .ok r) :=
  ⟨⟨by decide, (training_gate_no_insufficient_data cfg0 env0 or0).1 buf0 _ (by decide)⟩,
   (training_gate_no_insufficient_data cfg0 env0 or0).2.1 sTr [1] 0 (by decide),
   (training_gate_no_insufficient_data cfg0 env0 or0).2.2 2 sTr [1] 0 false 0 0 rfl (by decide)⟩

/-- C8.  In training mode, while the incremented step counter is at most
`start_steps` the action handed to the environment is the environment's own
random sample (the policy is not consulted); past the warm-up it is the
noisy clipped policy action `select_action`; and the training-mode loop
iteration steps the environment with exactly that chosen action. -/
theorem warmup_uses_env_sampler {σ : Type} (cfg : AgentCfg) (env : Env σ) (o : RunOracle)
    (steps : ℕ) (p : Params) (s : AgentState) (obs : Vec) (es : σ)
    (h : 1 ≤ s.buffer.capacity) :
    (steps ≤ cfg.start_steps → chosenAction cfg env o steps p obs es = env.sampleF es) ∧
    (steps > cfg.start_steps →
      chosenAction cfg env o steps p obs es = select_action cfg p obs (o.noise steps)) ∧
    (∃ s', trainModeStep cfg env o s obs es
        = .ok (s', env.stepF es (chosenAction cfg env o (s.steps + 1) s.params obs es))) := by
  refine ⟨?_, ?_, ?_⟩
  · intro h1
    simp only [chosenAction]
    rw [if_neg (by omega)]
  · intro h1
    simp only [chosenAction]
    rw [if_pos h1]
  · obtain ⟨s', hstep, -⟩ := trainModeStep_ok cfg env o s obs es h
    exact ⟨s', hstep⟩

theorem warmup_uses_env_sampler_witness :
    (1 ≤ cfg0.start_steps ∧ chosenAction cfg0 env0 or0 1 p0 [1] 0 = env0.sampleF 0) ∧
    (2 > cfg0.start_steps ∧
      chosenAction cfg0 env0 or0 2 p0 [1] 0 = select_action cfg0 p0 [1] (or0.noise 2)) ∧
    (∃ s', trainModeStep cfg0 env0 or0 sTr [1] 0
        = .ok (s', env0.stepF 0 (chosenAction cfg0 env0 or0 (sTr.steps + 1) sTr.params [1] 0))) :=
  ⟨⟨by decide,
    (warmup_uses_env_sampler cfg0 env0 or0 1 p0 sTr [1] 0 (by decide)).1 (by decide)⟩,
   ⟨by decide,
    (warmup_uses_env_sampler cfg0 env0 or0 2 p0 sTr [1] 0 (by decide)).2.1 (by decide)⟩,
   (warmup_uses_env_sampler cfg0 env0 or0 0 p0 sTr [1] 0 (by decide)).2.2⟩

/-- C9.  An evaluation-mode episode returns with the agent state equal to
the input state except for the end-of-episode log write: the global step
counter, the Experience Store, the four parameter vectors and both loss
histories are all unchanged. -/
theorem eval_mode_frame {σ : Type} (cfg : AgentCfg) (env : Env σ) (o : RunOracle)
    (fuel : ℕ) (s : AgentState) (obs : Vec) (es : σ) (dn : Bool) (sn : ℕ) (tw : ℚ)
    (h : s.eval_mode = true) :
    (∃ n r es', runAux cfg env o fuel s obs es dn sn tw = .ok (n, r, finishLog s, es')) ∧
    (finishLog s).steps = s.steps ∧
    (finishLog s).buffer = s.buffer ∧
    (finishLog s).params = s.params ∧
    (finishLog s).policy_losses = s.policy_losses ∧
    (finishLog s).qf_losses = s.qf_losses := by
  refine ⟨?_, rfl, rfl, rfl, rfl, rfl⟩
  induction fuel generalizing obs es dn sn tw with
  | zero => exact ⟨sn, tw, es, rfl⟩
  | succ n ih =>
    cases dn with
    | true => exact ⟨sn, tw, es, rfl⟩
    | false =>
      rcases hx : env.stepF es (evalAction cfg s.params obs) with ⟨nextObs, reward, dn', es'⟩
      simp only [runAux, loopStep, h, if_true, evalModeStep, hx]
      exact ih nextObs es' dn' (sn + 1) (tw + reward)

theorem eval_mode_frame_witness :
    sEv.eval_mode = true ∧
    ∃ n r es', runAux cfg0 env0 or0 2 sEv [1] 0 false 0 0 = .ok (n, r, finishLog sEv, es') :=
  ⟨rfl, (eval_mode_frame cfg0 env0 or0 2 sEv [1] 0 false 0 0 rfl).1⟩

lemma runAux_never_done {σ : Type} (cfg : AgentCfg) (env : Env σ) (o : RunOracle)
    (hd : ∀ (es : σ) (a : Vec), (env.stepF es a).2.2.1 = false) :
    ∀ (fuel : ℕ) (s : AgentState) (obs : Vec) (es : σ) (sn : ℕ) (tw : ℚ),
      1 ≤ s.buffer.capacity →
      ∃ r st es', runAux cfg env o fuel s obs es false sn tw = .ok (sn + fuel, r, st, es') := by
  intro fuel
  induction fuel with
  | zero => exact fun s obs es sn tw _ => ⟨tw, finishLog s, es, rfl⟩
  | succ n ih =>
    intro s obs es sn tw h
    rw [show sn + (n + 1) = sn + 1 + n by omega]
    by_cases he : s.eval_mode
    · rcases hx : env.stepF es (evalAction cfg s.params obs) with ⟨nextObs, reward, dn', es'⟩
      have hdn : dn' = false := by
        have h2 := hd es (evalAction cfg s.params obs)
        rw [hx] at h2
        exact h2
      subst hdn
      simp only [runAux, loopStep, he, if_true, evalModeStep, hx]
      exact ih s nextObs es' (sn + 1) (tw + reward) h
    · obtain ⟨s', hstep, -, hcap, -, -, -, -⟩ := trainModeStep_ok cfg env o s obs es h
      rcases hx : env.stepF es (chosenAction cfg env o (s.steps + 1) s.params obs es) with
        ⟨nextObs, reward, dn', es'⟩
      have hdn : dn' = false := by
        have h2 := hd es (chosenAction cfg env o (s.steps + 1) s.params obs es)
        rw [hx] at h2
        exact h2
      subst hdn
      rw [hx] at hstep
      simp only [runAux, loopStep, he, if_false, hstep]
      exact ih s' nextObs es' (sn + 1) (tw + reward) (by omega)

/-- C4.  For any `max_step ≥ 1`: against an environment that reports `done`
on every step, `run` returns `step_number = 1` regardless of `max_step`;
against an environment that never reports `done`, `run` returns
`step_number = max_step` exactly. -/
theorem run_termination_scenarios {σ : Type} (cfg : AgentCfg) (env : Env σ) (o : RunOracle)
    (maxStep : ℕ) (s : AgentState) (es0 : σ)
    (hm : 1 ≤ maxStep) (hcap : 1 ≤ s.buffer.capacity) :
    ((∀ (es : σ) (a : Vec), (env.stepF es a).2.2.1 = true) →
      ∃ r st es', run cfg env o maxStep s es0 = .ok (1, r, st, es')) ∧
    ((∀ (es : σ) (a : Vec), (env.stepF es a).2.2.1 = false) →
      ∃ r st es', run cfg env o maxStep s es0 = .ok (maxStep, r, st, es')) := by
  obtain ⟨m, rfl⟩ : ∃ m, maxStep = m + 1 := ⟨maxStep - 1, by omega⟩
  constructor
  · intro hd
    rcases hr : env.resetF es0 with ⟨obs0, es1⟩
    by_cases he : s.eval_mode
    · rcases hx : env.stepF es1 (evalAction cfg s.params obs0) with ⟨nextObs, reward, dn', es'⟩
      have hdn : dn' = true := by
        have h2 := hd es1 (evalAction cfg s.params obs0)
        rw [hx] at h2
        exact h2
      subst hdn
      simp only [run, hr, runAux, loopStep, he, if_true, evalModeStep, hx]
      cases m with
      | zero => exact ⟨_, _, _, rfl⟩
      | succ k => exact ⟨_, _, _, rfl⟩
    · obtain ⟨s', hstep, -, -, -, -, -, -⟩ := trainModeStep_ok cfg env o s obs0 es1 hcap
      rcases hx : env.stepF es1 (chosenAction cfg env o (s.steps + 1) s.params obs0 es1) with
        ⟨nextObs, reward, dn', es'⟩
      have hdn : dn' = true := by
        have h2 := hd es1 (chosenAction cfg env o (s.steps + 1) s.params obs0 es1)
        rw [hx] at h2
        exact h2
      subst hdn
      rw [hx] at hstep
      simp only [run, hr, runAux, loopStep, he, if_false, hstep]
      cases m with
      | zero => exact ⟨_, _, _, rfl⟩
      | succ k => exact ⟨_, _, _, rfl⟩
  · intro hd
    rcases hr : env.resetF es0 with ⟨obs0, es1⟩
    obtain ⟨r, st, es', h1⟩ := runAux_never_done cfg env o hd (m + 1) s obs0 es1 0 0 hcap
    rw [show 0 + (m + 1) = m + 1 by omega] at h1
    refine ⟨r, st, es', ?_⟩
    simp only [run, hr]
    exact h1

theorem run_termination_scenarios_witness :
    (∃ r st es', run cfg0 envRec or0 3 sTr [] = .ok (1, r, st, es')) ∧
    (∃ r st es', run cfg0 env0 or0 3 sTr 0 = .ok (3, r, st, es')) :=
  ⟨(run_termination_scenarios cfg0 envRec or0 3 sTr [] (by decide) (by decide)).1
      (fun _ _ => rfl),
   (run_termination_scenarios cfg0 env0 or0 3 sTr 0 (by decide) (by decide)).2
      (fun _ _ => rfl)⟩

lemma train_model_inv (cfg : AgentCfg) (o : TrainOracle) (s s' : AgentState)
    (h : train_model cfg o s = .ok s') :
    s' = { s with
      params := targetSync cfg.tau (policyUpdate o (criticUpdate o s.params))
      policy_losses := s.policy_losses
        ++ [policyLossVal cfg s.params (sampledBatch s.buffer cfg.batch_size o.idxF)]
      qf_losses := s.qf_losses
        ++ [qfLossVal cfg s.params (sampledBatch s.buffer cfg.batch_size o.idxF)] } := by
  cases hs : s.buffer.sample cfg.batch_size o.idxF with
  | error e =>
      unfold train_model at h
      rw [hs] at h
      exact absurd h (by simp)
  | ok batch =>
      have hb : batch = sampledBatch s.buffer cfg.batch_size o.idxF := by
        simp only [ReplayBuffer.sample] at hs
        split at hs
        · exact absurd hs (by simp)
        · injection hs with hs
          exact hs.symm
      unfold train_model at h
      rw [hs] at h
      subst hb
      injection h with h
      exact h.symm

lemma trainModeStep_losses {σ : Type} (cfg : AgentCfg) (env : Env σ) (o : RunOracle)
    (s : AgentState) (obs : Vec) (es : σ) (s1 : AgentState) (out : Vec × ℚ × Bool × σ)
    (hls : trainModeStep cfg env o s obs es = .ok (s1, out)) :
    (∃ u, s1.policy_losses = s.policy_losses ++ u) ∧
    (∃ v, s1.qf_losses = s.qf_losses ++ v) := by
  rcases hx : env.stepF es (chosenAction cfg env o (s.steps + 1) s.params obs es) with
    ⟨nextObs, reward, dn', es'⟩
  simp only [trainModeStep, hx] at hls
  split at hls
  · cases htm : train_model cfg (o.tr (s.steps + 1))
        { s with
          steps := s.steps + 1
          buffer := s.buffer.add
            ⟨obs, chosenAction cfg env o (s.steps + 1) s.params obs es, reward, nextObs, dn'⟩ } with
    | error e =>
        rw [htm] at hls
        exact absurd hls (by simp)
    | ok s3 =>
        rw [htm] at hls
        injection hls with hls
        have h3 := train_model_inv _ _ _ _ htm
        have hs1 : s1 = s3 := (congrArg Prod.fst hls).symm
        subst hs1
        rw [h3]
        exact ⟨⟨_, rfl⟩, ⟨_, rfl⟩⟩
  · injection hls with hls
    have hs1 : s1 = { s with
        steps := s.steps + 1
        buffer := s.buffer.add
          ⟨obs, chosenAction cfg env o (s.steps + 1) s.params obs es, reward, nextObs, dn'⟩ } :=
      (congrArg Prod.fst hls).symm
    subst hs1
    exact ⟨⟨[], by simp⟩, ⟨[], by simp⟩⟩

lemma runAux_result_shape {σ : Type} (cfg : AgentCfg) (env : Env σ) (o : RunOracle) :
    ∀ (fuel : ℕ) (s : AgentState) (obs : Vec) (es : σ) (dn : Bool) (sn : ℕ) (tw : ℚ)
      (n : ℕ) (r : ℚ) (s' : AgentState) (es' : σ),
      runAux cfg env o fuel s obs es dn sn tw = .ok (n, r, s', es') →
      ∃ s0, s' = finishLog s0 ∧
        (∃ u, s0.policy_losses = s.policy_losses ++ u) ∧
        (∃ v, s0.qf_losses = s.qf_losses ++ v) := by
  intro fuel
  induction fuel with
  | zero =>
      intro s obs es dn sn tw n r s' es' h
      injection h with h
      exact ⟨s, ((congrArg (fun t => t.2.2.1) h).symm : s' = finishLog s),
        ⟨[], by simp⟩, ⟨[], by simp⟩⟩
  | succ m ih =>
      intro s obs es dn sn tw n r s' es' h
      cases dn with
      | true =>
          injection h with h
          exact ⟨s, ((congrArg (fun t => t.2.2.1) h).symm : s' = finishLog s),
            ⟨[], by simp⟩, ⟨[], by simp⟩⟩
      | false =>
          rw [runAux] at h
          cases hls : loopStep cfg env o s obs es with
          | error e =>
              rw [hls] at h
              exact absurd h (by simp)
          | ok t =>
              rw [hls] at h
              rcases t with ⟨s1, nextObs, reward, dn1, es1⟩
              obtain ⟨s0, hfin, ⟨u1, hu1⟩, ⟨v1, hv1⟩⟩ :=
                ih s1 nextObs es1 dn1 (sn + 1) (tw + reward) n r s' es' h
              have hext : (∃ u, s1.policy_losses = s.policy_losses ++ u) ∧
                  (∃ v, s1.qf_losses = s.qf_losses ++ v) := by
                unfold loopStep at hls
                split at hls
                · injection hls with hls
                  have hs1 : s1 = s := (congrArg Prod.fst hls).symm
                  subst hs1
                  exact ⟨⟨[], by simp⟩, ⟨[], by simp⟩⟩
                · exact trainModeStep_losses cfg env o s obs es s1 _ hls
              obtain ⟨⟨u2, hu2⟩, ⟨v2, hv2⟩⟩ := hext
              refine ⟨s0, hfin, ⟨u2 ++ u1, ?_⟩, ⟨v2 ++ v1, ?_⟩⟩
              · rw [hu1, hu2, List.append_assoc]
              · rw [hv1, hv2, List.append_assoc]

/-- C10.  Whenever `run`'s loop returns, the logger holds the rounded mean
of the entire accumulated loss history — the final histories, which only
extend the histories the episode started with — for each approximator; the
mean of an empty history (no Learning Step ever ran) is not a number
(`none`), and `run` does not guard against it. -/
theorem run_logs_mean_of_full_history {σ : Type} (cfg : AgentCfg) (env : Env σ)
    (o : RunOracle) (fuel : ℕ) (s : AgentState) (obs : Vec) (es : σ) (dn : Bool)
    (sn : ℕ) (tw : ℚ) (n : ℕ) (r : ℚ) (s' : AgentState) (es' : σ)
    (h : runAux cfg env o fuel s obs es dn sn tw = .ok (n, r, s', es')) :
    s'.logger.lossPi = (meanOpt s'.policy_losses).map round5 ∧
    s'.logger.lossQ = (meanOpt s'.qf_losses).map round5 ∧
    (∃ u, s'.policy_losses = s.policy_losses ++ u) ∧
    (∃ v, s'.qf_losses = s.qf_losses ++ v) ∧
    (s'.policy_losses = [] → s'.logger.lossPi = none) ∧
    (s'.qf_losses = [] → s'.logger.lossQ = none) := by
  obtain ⟨s0, rfl, hu, hv⟩ := runAux_result_shape cfg env o fuel s obs es dn sn tw n r s' es' h
  refine ⟨rfl, rfl, hu, hv, ?_, ?_⟩
  · intro he
    have : meanOpt s0.policy_losses = none := by
      rw [show s0.policy_losses = ([] : List ℚ) from he]
      simp [meanOpt]
    simp only [finishLog, this]
    rfl
  · intro he
    have : meanOpt s0.qf_losses = none := by
      rw [show s0.qf_losses = ([] : List ℚ) from he]
      simp [meanOpt]
    simp only [finishLog, this]
    rfl

theorem run_logs_mean_of_full_history_witness :
    runAux cfg0 env0 or0 1 sEv [2] 0 false 0 0 = .ok (1, 1, finishLog sEv, 1) ∧
    ((finishLog sEv).logger.lossPi = (meanOpt (finishLog sEv).policy_losses).map round5 ∧
     (finishLog sEv).logger.lossQ = (meanOpt (finishLog sEv).qf_losses).map round5 ∧
     (∃ u, (finishLog sEv).policy_losses = sEv.policy_losses ++ u) ∧
     (∃ v, (finishLog sEv).qf_losses = sEv.qf_losses ++ v) ∧
     ((finishLog sEv).policy_losses = [] → (finishLog sEv).logger.lossPi = none) ∧
     ((finishLog sEv).qf_losses = [] → (finishLog sEv).logger.lossQ = none)) :=
  have heq : runAux cfg0 env0 or0 1 sEv [2] 0 false 0 0 = .ok (1, 1, finishLog sEv, 1) := by
    norm_num [runAux, loopStep, evalModeStep, evalAction, cfg0, sEv, p0, env0, or0]
  ⟨heq, run_logs_mean_of_full_history cfg0 env0 or0 1 sEv [2] 0 false 0 0 1 1
    (finishLog sEv) 1 heq⟩
